import Mathlib

/-!
Shallow embedding of `src/evo/simplifiedmns.cpp` (Dash Core): the simplified
masternode-list diff builder.  Hashes (`uint256`), addresses, keys and scripts
are modelled as natural numbers; the byte-wise `uint256::Compare` order is
modelled by the order on `Nat`.  External collaborators (chain index,
deterministic-MN manager, quorum block processor, quorum manager, block
storage, coinbase chainlock extraction) are modelled as fields of an
environment record `Env`.  Out-parameter mutation is modelled by explicit
state passing; a C++ crash (dereference of a failed lookup) is modelled by
`Option.none`.
-/

/-- A chain-index entry (`CBlockIndex`): block hash and height. -/
structure BlockIndex where
  hash : Nat
  nHeight : Int
deriving DecidableEq

/-- Modelled from the spec: `CProRegTx::LEGACY_BLS_VERSION` (declared in a
header outside `src/`), the legacy key-scheme tag. -/
def LEGACY_BLS_VERSION : Nat := 1

/-- Modelled from the spec: `CSimplifiedMNListEntry::BASIC_BLS_VERSION`
(declared in a header outside `src/`), the basic key-scheme tag: any
non-legacy tag collapses to this value. -/
def BASIC_BLS_VERSION : Nat := 2

/-- The state record of a deterministic masternode
(`CDeterministicMNState`), restricted to the fields the entry constructor
projects. -/
structure CDeterministicMNState where
  confirmedHash : Nat
  addr : Nat
  pubKeyOperator : Nat
  keyIDVoting : Nat
  banned : Bool
  scriptPayout : Nat
  scriptOperatorPayout : Nat
  nVersion : Nat
  platformHTTPPort : Nat
  platformNodeID : Nat
deriving DecidableEq

/-- A deterministic masternode record (`CDeterministicMN`). -/
structure CDeterministicMN where
  proTxHash : Nat
  nType : Nat
  pdmnState : CDeterministicMNState
deriving DecidableEq

/-- `CSimplifiedMNListEntry`: one validator's public state at a block. -/
structure CSimplifiedMNListEntry where
  proRegTxHash : Nat
  confirmedHash : Nat
  service : Nat
  pubKeyOperator : Nat
  keyIDVoting : Nat
  isValid : Bool
  scriptPayout : Nat
  scriptOperatorPayout : Nat
  nVersion : Nat
  nType : Nat
  platformHTTPPort : Nat
  platformNodeID : Nat
deriving DecidableEq

/-- The constructor `CSimplifiedMNListEntry(const CDeterministicMN&)`
(simplifiedmns.cpp lines 29-43): direct field projection, `isValid` is the
negation of the banned flag, and the version tag is collapsed to two values. -/
def CSimplifiedMNListEntry.ofDMN (dmn : CDeterministicMN) : CSimplifiedMNListEntry :=
  { proRegTxHash := dmn.proTxHash
    confirmedHash := dmn.pdmnState.confirmedHash
    service := dmn.pdmnState.addr
    pubKeyOperator := dmn.pdmnState.pubKeyOperator
    keyIDVoting := dmn.pdmnState.keyIDVoting
    isValid := !dmn.pdmnState.banned
    scriptPayout := dmn.pdmnState.scriptPayout
    scriptOperatorPayout := dmn.pdmnState.scriptOperatorPayout
    nVersion := if dmn.pdmnState.nVersion = LEGACY_BLS_VERSION then LEGACY_BLS_VERSION
                else BASIC_BLS_VERSION
    nType := dmn.nType
    platformHTTPPort := dmn.pdmnState.platformHTTPPort
    platformNodeID := dmn.pdmnState.platformNodeID }

/-- Modelled from the spec: `operator==` of `CSimplifiedMNListEntry` is
declared in `simplifiedmns.h`, which is not under `src/`.  Per the spec,
entry equality used for diffing compares all fields except `scriptPayout`
and `scriptOperatorPayout`. -/
def smeEqNoPayout (a b : CSimplifiedMNListEntry) : Bool :=
  a.proRegTxHash == b.proRegTxHash &&
  a.confirmedHash == b.confirmedHash &&
  a.service == b.service &&
  a.pubKeyOperator == b.pubKeyOperator &&
  a.keyIDVoting == b.keyIDVoting &&
  a.isValid == b.isValid &&
  a.nVersion == b.nVersion &&
  a.nType == b.nType &&
  a.platformHTTPPort == b.platformHTTPPort &&
  a.platformNodeID == b.platformNodeID

/-- `CDeterministicMNList`: the registry snapshot for a block, with the
block hash and the masternode records in `ForEachMN` iteration order. -/
structure CDeterministicMNList where
  blockHash : Nat
  entries : List CDeterministicMN

/-- `CDeterministicMNList::GetMN`: look up a masternode by its
`proTxHash`. -/
def CDeterministicMNList.getMN (l : CDeterministicMNList) (h : Nat) :
    Option CDeterministicMN :=
  l.entries.find? (fun m => m.proTxHash == h)

/-- The ordering relation used by both `CSimplifiedMNList` constructors:
`a->proRegTxHash.Compare(b->proRegTxHash) < 0`, modelled on `Nat` keys.  The
non-strict form is what `insertionSort` needs; with distinct keys it
coincides with the strict comparator. -/
def entryLe (a b : CSimplifiedMNListEntry) : Prop :=
  a.proRegTxHash ≤ b.proRegTxHash

instance : DecidableRel entryLe := fun a b => inferInstanceAs (Decidable (_ ≤ _))

instance : IsTotal CSimplifiedMNListEntry entryLe :=
  ⟨fun a b => Nat.le_total a.proRegTxHash b.proRegTxHash⟩

instance : IsTrans CSimplifiedMNListEntry entryLe :=
  ⟨fun _ _ _ hab hbc => Nat.le_trans hab hbc⟩

/-- `CSimplifiedMNList`: the owned entry sequence. -/
structure CSimplifiedMNList where
  mnList : List CSimplifiedMNListEntry

/-- `CSimplifiedMNList(const std::vector<CSimplifiedMNListEntry>&)`
(lines 97-107): copy the entries and sort by `proRegTxHash`. -/
def CSimplifiedMNList.ofEntries (smlEntries : List CSimplifiedMNListEntry) :
    CSimplifiedMNList :=
  ⟨List.insertionSort entryLe smlEntries⟩

/-- `CSimplifiedMNList(const CDeterministicMNList&)` (lines 109-121):
project every registry record through the entry constructor, then sort by
`proRegTxHash`. -/
def CSimplifiedMNList.ofDMNList (dmnList : CDeterministicMNList) :
    CSimplifiedMNList :=
  ⟨List.insertionSort entryLe (dmnList.entries.map CSimplifiedMNListEntry.ofDMN)⟩

/-- A mined quorum final commitment (`llmq::CFinalCommitment`), restricted
to the identifying fields used here. -/
structure Commitment where
  llmqType : Nat
  quorumHash : Nat
deriving DecidableEq

/-- A runtime quorum object (`llmq::CQuorum`), restricted to the fields the
chainlock correlator reads: the DKG base block height
(`m_quorum_base_block_index->nHeight`) and the rotation index
(`qc->quorumIndex`). -/
structure Quorum where
  baseHeight : Int
  quorumIndex : Int
deriving DecidableEq

/-- The simplified diff (`CSimplifiedMNListDiff`) with its default-constructed
field values. -/
structure CSimplifiedMNListDiff where
  nVersion : Nat := 1
  baseBlockHash : Nat := 0
  blockHash : Nat := 0
  mnList : List CSimplifiedMNListEntry := []
  deletedMNs : List Nat := []
  deletedQuorums : List (Nat × Nat) := []
  newQuorums : List Commitment := []
  quorumsCLSigs : List (Nat × Finset ℕ) := []
  cbTx : Option Nat := none
  cbTxMerkleTree : List Nat × List Bool := ([], [])
deriving DecidableEq

/-- The default-constructed diff (`CSimplifiedMNListDiff()`). -/
def emptyDiff : CSimplifiedMNListDiff := {}

/-- The environment of external collaborators for a fixed chain view. -/
structure Env where
  genesis : BlockIndex
  lookupBlockIndex : Nat → Option BlockIndex
  chainContains : BlockIndex → Bool
  getAncestor : BlockIndex → Int → BlockIndex
  getListForBlock : BlockIndex → CDeterministicMNList
  getCommitments : BlockIndex → List (Nat × List BlockIndex)
  getMinedCommitment : Nat → Nat → Option Commitment
  getQuorum : Nat → Nat → Option Quorum
  getCLSig : BlockIndex → Option Nat
  isV20Active : BlockIndex → Bool
  readBlock : BlockIndex → Option (List Nat)

/-- The per-target-record decision of `BuildSimplifiedDiff` (lines 300-313):
a record absent from the base snapshot is added outright; a record present
in both is included exactly when the two projected entries compare unequal,
or extended mode is on and a payout script differs.  In either case the
stored entry is the target-side projection. -/
def diffDecision (fromL : CDeterministicMNList) (extended : Bool)
    (toPtr : CDeterministicMN) : Option CSimplifiedMNListEntry :=
  match fromL.getMN toPtr.proTxHash with
  | none => some (CSimplifiedMNListEntry.ofDMN toPtr)
  | some fromPtr =>
    let sme1 := CSimplifiedMNListEntry.ofDMN toPtr
    let sme2 := CSimplifiedMNListEntry.ofDMN fromPtr
    if !(smeEqNoPayout sme1 sme2) ||
       (extended && (sme1.scriptPayout != sme2.scriptPayout ||
                     sme1.scriptOperatorPayout != sme2.scriptOperatorPayout)) then
      some sme1
    else
      none

/-- `BuildSimplifiedDiff` (lines 294-323): entry diff between two registry
snapshots. -/
def buildSimplifiedDiff (fromL toL : CDeterministicMNList) (extended : Bool) :
    CSimplifiedMNListDiff :=
  { emptyDiff with
    baseBlockHash := fromL.blockHash
    blockHash := toL.blockHash
    mnList := toL.entries.filterMap (diffDecision fromL extended)
    deletedMNs :=
      (fromL.entries.filter (fun m => (toL.getMN m.proTxHash).isNone)).map
        (fun m => m.proTxHash) }

/-- Flatten the grouped active-commitment enumeration into `(type, hash)`
pairs, in enumeration order (the two nested loops of lines 156-165). -/
def quorumRefList (commitments : List (Nat × List BlockIndex)) : List (Nat × Nat) :=
  commitments.flatMap (fun p => p.2.map (fun b => (p.1, b.hash)))

/-- The strict ordering of `std::set<std::pair<Consensus::LLMQType, uint256>>`:
lexicographic on `(type, hash)`. -/
def refLt (a b : Nat × Nat) : Prop :=
  a.1 < b.1 ∨ (a.1 = b.1 ∧ a.2 < b.2)

instance : DecidableRel refLt := fun a b =>
  inferInstanceAs (Decidable (_ ∨ _))

/-- Insert into a sorted duplicate-free list, the `std::set::emplace`
behaviour. -/
def setInsertRef (x : Nat × Nat) : List (Nat × Nat) → List (Nat × Nat)
  | [] => [x]
  | y :: rest =>
    if refLt x y then x :: y :: rest
    else if x = y then y :: rest
    else y :: setInsertRef x rest

/-- Build the `std::set` of `(type, hash)` pairs from a list. -/
def refSetOf (l : List (Nat × Nat)) : List (Nat × Nat) :=
  l.foldl (fun s x => setInsertRef x s) []

/-- The second loop of `BuildQuorumsDiff` (lines 172-182): walk the target
refs in set order; refs also present at base are skipped, otherwise the
mined commitment is fetched and appended, and a failed fetch aborts with the
commitments accumulated so far. -/
def newQuorumsLoop (env : Env) (baseSet : List (Nat × Nat)) :
    List (Nat × Nat) → List Commitment → Bool × List Commitment
  | [], acc => (true, acc)
  | p :: rest, acc =>
    if p ∈ baseSet then newQuorumsLoop env baseSet rest acc
    else
      match env.getMinedCommitment p.1 p.2 with
      | none => (false, acc)
      | some qc => newQuorumsLoop env baseSet rest (acc ++ [qc])

/-- `CSimplifiedMNListDiff::BuildQuorumsDiff` (lines 148-185): returns the
success flag, `deletedQuorums` and `newQuorums` (the two members it writes). -/
def buildQuorumsDiff (env : Env) (baseBlockIndex blockIndex : BlockIndex) :
    Bool × List (Nat × Nat) × List Commitment :=
  let baseQuorumHashes := refSetOf (quorumRefList (env.getCommitments baseBlockIndex))
  let quorumHashes := refSetOf (quorumRefList (env.getCommitments blockIndex))
  let deleted := baseQuorumHashes.filter (fun p => p ∉ quorumHashes)
  let r := newQuorumsLoop env baseQuorumHashes quorumHashes []
  (r.1, deleted, r.2)

/-- The first loop of `BuildQuorumChainlockInfo` (lines 193-201): for the
new quorum at index `idx`, resolve the runtime quorum and pair the index
with the ancestor of the target block at height
(DKG base height) - (rotation index) - 8.  A failed `GetQuorum` lookup is a
null dereference in the C++, modelled as `none`. -/
def resolveWorkBlocks (env : Env) (blockIndex : BlockIndex) :
    List Commitment → Nat → Option (List (BlockIndex × Nat))
  | [], _ => some []
  | e :: rest, idx =>
    match env.getQuorum e.llmqType e.quorumHash with
    | none => none
    | some quorum =>
      match resolveWorkBlocks env blockIndex rest (idx + 1) with
      | none => none
      | some tl =>
        some ((env.getAncestor blockIndex
                (quorum.baseHeight - quorum.quorumIndex - 8), idx) :: tl)

/-- The distinct keys of the work-base multimap, in first-occurrence order
(the key order of the `std::multimap` is irrelevant to the final map). -/
def dedupKeys (pairs : List (BlockIndex × Nat)) : List BlockIndex :=
  pairs.foldl (fun acc p => if p.1 ∈ acc then acc else acc ++ [p.1]) []

/-- The index set of one work-base block: the `equal_range` of the multimap
collected into a `std::set` (lines 212-214). -/
def blockIdxSet (pairs : List (BlockIndex × Nat)) (b : BlockIndex) : Finset ℕ :=
  ((pairs.filter (fun p => p.1 = b)).map Prod.snd).toFinset

/-- Lines 206-210: the chainlock signature carried by a work-base block;
a default-constructed (null) signature, modelled as `0`, when
`GetNonNullCoinbaseChainlock` has no value. -/
def sigOfBlock (env : Env) (b : BlockIndex) : Nat :=
  (env.getCLSig b).getD 0

/-- Lines 220-222: `std::map::insert` followed by a set-union merge when the
signature key is already present. -/
def insertCLSig (m : List (Nat × Finset ℕ)) (sig : Nat) (s : Finset ℕ) :
    List (Nat × Finset ℕ) :=
  match m with
  | [] => [(sig, s)]
  | (k, v) :: rest =>
    if k = sig then (k, v ∪ s) :: rest
    else (k, v) :: insertCLSig rest sig s

/-- The second loop of `BuildQuorumChainlockInfo` (lines 203-223): visit
every distinct work-base block once, resolve its signature and merge its
index set into the signature-keyed map. -/
def buildCLSigGroups (env : Env) (pairs : List (BlockIndex × Nat)) :
    List (Nat × Finset ℕ) :=
  (dedupKeys pairs).foldl
    (fun m b => insertCLSig m (sigOfBlock env b) (blockIdxSet pairs b)) []

/-- `CSimplifiedMNListDiff::BuildQuorumChainlockInfo` (lines 187-226):
returns the C++ boolean result together with the computed `quorumsCLSigs`;
`none` models the crash on a failed quorum lookup. -/
def buildQuorumChainlockInfo (env : Env) (blockIndex : BlockIndex)
    (newQuorums : List Commitment) : Option (Bool × List (Nat × Finset ℕ)) :=
  match resolveWorkBlocks env blockIndex newQuorums 0 with
  | none => none
  | some pairs => some (true, buildCLSigGroups env pairs)

/-- The return value of `BuildSimplifiedMNListDiff`. -/
inductive BuildError where
  | blockNotFound
  | notSameChain
  | invalidRange
  | quorumDiffFailed
  | chainlockCorrelationFailed
  | blockReadFailed
deriving DecidableEq

/-- Success or a named failure, mirroring `return true` / `return false`
with `errorRet`. -/
inductive BuildResult where
  | ok
  | err (e : BuildError)
deriving DecidableEq

/-- `BuildSimplifiedMNListDiff` (lines 325-394).  The function communicates
through the out-parameter `mnListDiffRet`, which is reset on entry; the
model returns the pair (return value, final out-parameter state).  `none`
models a crash (failed quorum lookup inside the chainlock correlator, or an
empty transaction list). -/
def buildSimplifiedMNListDiff (env : Env) (baseBlockHash blockHash : Nat)
    (extended : Bool) : Option (BuildResult × CSimplifiedMNListDiff) :=
  let baseBlockIndexOpt : Option BlockIndex :=
    if baseBlockHash = 0 then some env.genesis
    else env.lookupBlockIndex baseBlockHash
  match baseBlockIndexOpt with
  | none => some (BuildResult.err BuildError.blockNotFound, emptyDiff)
  | some baseBlockIndex =>
    match env.lookupBlockIndex blockHash with
    | none => some (BuildResult.err BuildError.blockNotFound, emptyDiff)
    | some blockIndex =>
      if !env.chainContains baseBlockIndex || !env.chainContains blockIndex then
        some (BuildResult.err BuildError.notSameChain, emptyDiff)
      else if baseBlockIndex.nHeight > blockIndex.nHeight then
        some (BuildResult.err BuildError.invalidRange, emptyDiff)
      else
        let baseDmnList := env.getListForBlock baseBlockIndex
        let dmnList := env.getListForBlock blockIndex
        let d1 := buildSimplifiedDiff baseDmnList dmnList extended
        let d2 := { d1 with baseBlockHash := baseBlockHash }
        let q := buildQuorumsDiff env baseBlockIndex blockIndex
        let d3 := { d2 with deletedQuorums := q.2.1, newQuorums := q.2.2 }
        if !q.1 then
          some (BuildResult.err BuildError.quorumDiffFailed, d3)
        else
          let clStep : Option (Bool × CSimplifiedMNListDiff) :=
            if env.isV20Active blockIndex then
              match buildQuorumChainlockInfo env blockIndex q.2.2 with
              | none => none
              | some r => some (r.1, { d3 with quorumsCLSigs := r.2 })
            else some (true, d3)
          match clStep with
          | none => none
          | some (clOk, d4) =>
            if !clOk then
              some (BuildResult.err BuildError.chainlockCorrelationFailed, d4)
            else
              match env.readBlock blockIndex with
              | none => some (BuildResult.err BuildError.blockReadFailed, d4)
              | some vtx =>
                match vtx with
                | [] => none
                | c :: _ =>
                  some (BuildResult.ok,
                        { d4 with
                          cbTx := some c
                          cbTxMerkleTree :=
                            (vtx, true :: List.replicate (vtx.length - 1) false) })

/-- Look up a signature key in the `quorumsCLSigs` map; the empty set when
the key is absent. -/
def lookupCLSig (m : List (Nat × Finset ℕ)) (s : Nat) : Finset ℕ :=
  match m.find? (fun g => g.1 == s) with
  | none => ∅
  | some g => g.2

/-- The union of the per-block index sets of all distinct work-base blocks
whose resolved signature is `s`. -/
def sigBlockUnion (env : Env) (pairs : List (BlockIndex × Nat)) (s : Nat) :
    Finset ℕ :=
  ((dedupKeys pairs).filter (fun b => sigOfBlock env b = s)).foldr
    (fun b acc => blockIdxSet pairs b ∪ acc) ∅

/-- The union of all index sets of a `quorumsCLSigs` map. -/
def bigUnion (m : List (Nat × Finset ℕ)) : Finset ℕ :=
  m.foldr (fun g acc => g.2 ∪ acc) ∅

/-- The union of a list of finite sets. -/
def bigUnionList (l : List (Finset ℕ)) : Finset ℕ :=
  l.foldr (fun s acc => s ∪ acc) ∅

/-- The identifying `(type, hash)` pair of a commitment. -/
def refOf (c : Commitment) : Nat × Nat := (c.llmqType, c.quorumHash)

/-- The commitment store is consistent: a mined commitment fetched for a ref
carries that ref's type and hash. -/
def MinedCommitmentConsistent (env : Env) : Prop :=
  ∀ t h c, env.getMinedCommitment t h = some c → c.llmqType = t ∧ c.quorumHash = h

/-- Modelled from the spec: the ordering the spec claims for `new_quorums`
(section 4.3) — the target-side enumeration's iteration order (grouped by
type, insertion order within type), restricted to refs absent from the base
set. -/
def specNewQuorumOrder (env : Env) (baseBlockIndex blockIndex : BlockIndex) :
    List (Nat × Nat) :=
  let baseQuorumHashes := refSetOf (quorumRefList (env.getCommitments baseBlockIndex))
  (quorumRefList (env.getCommitments blockIndex)).filter
    (fun p => p ∉ baseQuorumHashes)

/-- A masternode record with the given id, all other fields fixed. -/
def mkDMN (id addr : Nat) : CDeterministicMN :=
  ⟨id, 0, ⟨0, addr, 0, 0, false, 0, 0, 1, 0, 0⟩⟩

/-- A simplified entry with the given id, all other fields fixed. -/
def mkEntry (id : Nat) : CSimplifiedMNListEntry :=
  { proRegTxHash := id, confirmedHash := 0, service := 0, pubKeyOperator := 0
    keyIDVoting := 0, isValid := true, scriptPayout := 0, scriptOperatorPayout := 0
    nVersion := 1, nType := 0, platformHTTPPort := 0, platformNodeID := 0 }

/-- A concrete environment: the entry diff is nonempty (block 2 has one
masternode that block 1 lacks), block 2 has one active quorum, and the
commitment store cannot resolve it, so the quorum diff fails. -/
def envC1 : Env :=
  { genesis := ⟨0, 0⟩
    lookupBlockIndex := fun h =>
      if h == 1 then some ⟨1, 1⟩ else if h == 2 then some ⟨2, 2⟩ else none
    chainContains := fun _ => true
    getAncestor := fun b _ => b
    getListForBlock := fun b => if b.hash == 2 then ⟨2, [mkDMN 100 0]⟩ else ⟨1, []⟩
    getCommitments := fun b => if b.hash == 2 then [(1, [⟨5, 5⟩])] else []
    getMinedCommitment := fun _ _ => none
    getQuorum := fun _ _ => none
    getCLSig := fun _ => none
    isV20Active := fun _ => true
    readBlock := fun _ => none }

/-- The out-parameter state in which the failed `envC1` build leaves the
diff: the entry diff is populated. -/
def partialDiffC1 : CSimplifiedMNListDiff :=
  { baseBlockHash := 1, blockHash := 2,
    mnList := [CSimplifiedMNListEntry.ofDMN (mkDMN 100 0)] }

/-- A concrete environment for the chainlock height computation: one quorum
with DKG base height 100 and rotation index 2, and ancestor lookup
returning a block whose hash records the requested height. -/
def envC2 : Env :=
  { genesis := ⟨0, 0⟩
    lookupBlockIndex := fun _ => none
    chainContains := fun _ => false
    getAncestor := fun _ h => ⟨h.toNat, h⟩
    getListForBlock := fun _ => ⟨0, []⟩
    getCommitments := fun _ => []
    getMinedCommitment := fun _ _ => none
    getQuorum := fun t h => if t == 1 && h == 10 then some ⟨100, 2⟩ else none
    getCLSig := fun _ => none
    isV20Active := fun _ => false
    readBlock := fun _ => none }

/-- A concrete environment for the chainlock grouping: two new quorums whose
work-base blocks are distinct (heights 90 and 190) and both carry no
embedded chainlock signature. -/
def envCL : Env :=
  { genesis := ⟨0, 0⟩
    lookupBlockIndex := fun h => if h == 1 then some ⟨1, 1⟩ else none
    chainContains := fun _ => true
    getAncestor := fun _ h => ⟨h.toNat, h⟩
    getListForBlock := fun b => ⟨b.hash, []⟩
    getCommitments := fun _ => []
    getMinedCommitment := fun _ _ => none
    getQuorum := fun _ h =>
      if h == 10 then some ⟨100, 2⟩ else if h == 20 then some ⟨200, 2⟩ else none
    getCLSig := fun _ => none
    isV20Active := fun _ => true
    readBlock := fun _ => some [3] }

/-- The two new quorums used with `envCL`. -/
def qsCL : List Commitment := [⟨1, 10⟩, ⟨1, 20⟩]

/-- The work-base pairs `envCL` produces for `qsCL`. -/
def pairsCL : List (BlockIndex × Nat) := [(⟨90, 90⟩, 0), (⟨190, 190⟩, 1)]

/-- The signature-group map `envCL` produces for `qsCL`: both work-base
blocks carry the null signature, so their index sets merge into the single
group keyed by it. -/
def mCL : List (Nat × Finset ℕ) := [(0, {0, 1})]

/-- A snapshot with one masternode, id 100, service address 7. -/
def fromLC5 : CDeterministicMNList := ⟨1, [mkDMN 100 7]⟩

/-- The same masternode at a later block, with a changed service address. -/
def toPtrC5 : CDeterministicMN := mkDMN 100 8

/-- A concrete environment in which a full build succeeds with the null base
sentinel: block 2 exists, is on the active chain, both snapshots are empty,
no quorums, and block 2 reads as a single transaction `7`. -/
def envC6 : Env :=
  { genesis := ⟨0, 0⟩
    lookupBlockIndex := fun h => if h == 2 then some ⟨2, 2⟩ else none
    chainContains := fun _ => true
    getAncestor := fun b _ => b
    getListForBlock := fun b => ⟨b.hash, []⟩
    getCommitments := fun _ => []
    getMinedCommitment := fun _ _ => none
    getQuorum := fun _ _ => none
    getCLSig := fun _ => none
    isV20Active := fun _ => true
    readBlock := fun _ => some [7] }

/-- The diff the successful `envC6` build returns. -/
def dC6 : CSimplifiedMNListDiff :=
  { baseBlockHash := 0, blockHash := 2, cbTx := some 7,
    cbTxMerkleTree := ([7], [true]) }

/-- A concrete environment in which the target block's quorum enumeration
reports quorum hashes 5 then 3 for type 1 (insertion order), and every
mined-commitment lookup succeeds. -/
def envC7 : Env :=
  { genesis := ⟨0, 0⟩
    lookupBlockIndex := fun h =>
      if h == 1 then some ⟨1, 1⟩ else if h == 2 then some ⟨2, 2⟩ else none
    chainContains := fun _ => true
    getAncestor := fun b _ => b
    getListForBlock := fun b => ⟨b.hash, []⟩
    getCommitments := fun b => if b.hash == 2 then [(1, [⟨5, 5⟩, ⟨3, 3⟩])] else []
    getMinedCommitment := fun t h => some ⟨t, h⟩
    getQuorum := fun _ _ => none
    getCLSig := fun _ => none
    isV20Active := fun _ => false
    readBlock := fun _ => some [3] }

/-- A concrete environment for the idempotence claim: block 2 holds one
masternode and reads as a single transaction `9`. -/
def envC8 : Env :=
  { genesis := ⟨0, 0⟩
    lookupBlockIndex := fun h => if h == 2 then some ⟨2, 2⟩ else none
    chainContains := fun _ => true
    getAncestor := fun b _ => b
    getListForBlock := fun b => ⟨b.hash, [mkDMN 100 7]⟩
    getCommitments := fun _ => [(1, [⟨5, 5⟩])]
    getMinedCommitment := fun t h => some ⟨t, h⟩
    getQuorum := fun _ _ => none
    getCLSig := fun _ => none
    isV20Active := fun _ => true
    readBlock := fun _ => some [9] }

theorem resolveWorkBlocks_get (env : Env) (bi : BlockIndex) :
    ∀ (qs : List Commitment) (k : Nat) (pairs : List (BlockIndex × Nat)),
      resolveWorkBlocks env bi qs k = some pairs →
      ∀ i (hi : i < qs.length) (q : Quorum),
        env.getQuorum (qs.get ⟨i, hi⟩).llmqType (qs.get ⟨i, hi⟩).quorumHash = some q →
        pairs[i]? = some (env.getAncestor bi (q.baseHeight - q.quorumIndex - 8), k + i)
  | [], _, _ => by intro _ i hi; exact absurd hi (by simp)
  | e :: rest, k, pairs => by
    intro hres i hi q hq
    rw [resolveWorkBlocks] at hres
    rcases hgq : env.getQuorum e.llmqType e.quorumHash with _ | quorum
    · rw [hgq] at hres; exact absurd hres (by simp)
    · rw [hgq] at hres
      rcases hrec : resolveWorkBlocks env bi rest (k + 1) with _ | tl
      · rw [hrec] at hres; exact absurd hres (by simp)
      · rw [hrec] at hres
        simp only [Option.some.injEq] at hres
        subst hres
        cases i with
        | zero =>
          simp only [List.get] at hq
          rw [hgq] at hq
          simp only [Option.some.injEq] at hq
          subst hq
          simp
        | succ j =>
          have hj : j < rest.length := by simpa using hi
          have := resolveWorkBlocks_get env bi rest (k + 1) tl hrec j hj q (by simpa using hq)
          simpa [Nat.add_assoc, Nat.add_comm 1 j] using this

/-- Claim C2: for every new quorum at index `i`, the chainlock correlator
computes its expected-signature block as the ancestor of the target block at
height equal to the quorum's DKG-base-block height minus its rotation index
minus 8. -/
theorem C2_expected_signature_block (env : Env) (bi : BlockIndex)
    (qs : List Commitment) (pairs : List (BlockIndex × Nat))
    (hres : resolveWorkBlocks env bi qs 0 = some pairs)
    (i : Nat) (hi : i < qs.length) (q : Quorum)
    (hq : env.getQuorum (qs.get ⟨i, hi⟩).llmqType (qs.get ⟨i, hi⟩).quorumHash = some q) :
    pairs[i]? = some (env.getAncestor bi (q.baseHeight - q.quorumIndex - 8), i) := by
  simpa using resolveWorkBlocks_get env bi qs 0 pairs hres i hi q hq

/-- Witness for C2 at a concrete input: one quorum of type 1 with hash 10,
DKG base height 100, rotation index 2; the work-base block is the ancestor
at height 90. -/
theorem C2_expected_signature_block_witness :
    ([((⟨90, 90⟩ : BlockIndex), 0)][0]? =
      some (envC2.getAncestor ⟨7, 500⟩ ((100 : Int) - 2 - 8), 0)) :=
  C2_expected_signature_block envC2 ⟨7, 500⟩ [⟨1, 10⟩] [(⟨90, 90⟩, 0)]
    (by decide) 0 (by decide) ⟨100, 2⟩ (by decide)

/-- Claim C6: for every successful build, the returned diff's
`baseBlockHash` equals the base hash literally supplied by the caller, even
when it is the null sentinel that internally resolves to genesis. -/
theorem C6_base_hash_literal (env : Env) (b t : Nat) (ext : Bool)
    (d : CSimplifiedMNListDiff)
    (h : buildSimplifiedMNListDiff env b t ext = some (BuildResult.ok, d)) :
    d.baseBlockHash = b := by
  simp only [buildSimplifiedMNListDiff] at h
  split at h
  · simp at h
  · split at h
    · simp at h
    · split at h
      · simp at h
      · split at h
        · simp at h
        · split at h
          · simp at h
          · split at h
            · exact absurd h (by simp)
            · rename_i clStep clOk d4 heq
              split at h
              · simp at h
              · split at h
                · simp at h
                · split at h
                  · simp at h
                  · simp only [Option.some.injEq, Prod.mk.injEq] at h
                    obtain ⟨-, hd⟩ := h
                    subst hd
                    split at heq
                    · split at heq
                      · simp at heq
                      · simp only [Option.some.injEq, Prod.mk.injEq] at heq
                        obtain ⟨-, hd4⟩ := heq
                        subst hd4
                        simp [buildSimplifiedDiff]
                    · simp only [Option.some.injEq, Prod.mk.injEq] at heq
                      obtain ⟨-, hd4⟩ := heq
                      subst hd4
                      simp [buildSimplifiedDiff]

/-- Witness for C6 at a concrete input: a successful build whose caller
supplied the null sentinel `0` as base; the returned field is `0`, not the
genesis hash. -/
theorem C6_base_hash_literal_witness :
    (buildSimplifiedMNListDiff envC6 0 2 false = some (BuildResult.ok, dC6)) ∧
    dC6.baseBlockHash = 0 :=
  ⟨by decide, C6_base_hash_literal envC6 0 2 false dC6 (by decide)⟩

/-- Counterexample to claim C1 as stated: a concrete build that fails in the
quorum-diff step returns with the out-parameter holding the entry diff
produced by the aborted build, so the operation is not all-or-nothing. -/
theorem C1_counterexample :
    (buildSimplifiedMNListDiff envC1 1 2 false =
      some (BuildResult.err BuildError.quorumDiffFailed, partialDiffC1)) ∧
    partialDiffC1.mnList ≠ [] := by
  exact ⟨by decide, by decide⟩

/-- Claim C1 as amended: failures from block lookup, the active-chain check
and the range check leave the out-parameter equal to the freshly reset empty
diff; later failures (quorum diff, block read) may leave partially built
data in the out-parameter. -/
theorem C1_amended_early_failure (env : Env) (b t : Nat) (ext : Bool)
    (e : BuildError) (d : CSimplifiedMNListDiff)
    (h : buildSimplifiedMNListDiff env b t ext = some (BuildResult.err e, d))
    (he : e = BuildError.blockNotFound ∨ e = BuildError.notSameChain ∨
          e = BuildError.invalidRange) :
    d = emptyDiff := by
  simp only [buildSimplifiedMNListDiff] at h
  split at h
  · simp only [Option.some.injEq, Prod.mk.injEq, BuildResult.err.injEq] at h
    exact h.2.symm
  · split at h
    · simp only [Option.some.injEq, Prod.mk.injEq, BuildResult.err.injEq] at h
      exact h.2.symm
    · split at h
      · simp only [Option.some.injEq, Prod.mk.injEq, BuildResult.err.injEq] at h
        exact h.2.symm
      · split at h
        · simp only [Option.some.injEq, Prod.mk.injEq, BuildResult.err.injEq] at h
          exact h.2.symm
        · split at h
          · simp only [Option.some.injEq, Prod.mk.injEq, BuildResult.err.injEq] at h
            rcases he with he | he | he <;> simp_all
          · split at h
            · simp at h
            · split at h
              · simp only [Option.some.injEq, Prod.mk.injEq, BuildResult.err.injEq] at h
                rcases he with he | he | he <;> simp_all
              · split at h
                · simp only [Option.some.injEq, Prod.mk.injEq, BuildResult.err.injEq] at h
                  rcases he with he | he | he <;> simp_all
                · split at h
                  · simp at h
                  · simp at h

/-- Witness for the amended C1 at a concrete input: a failed target lookup
leaves the out-parameter equal to the empty diff. -/
theorem C1_amended_early_failure_witness :
    (buildSimplifiedMNListDiff envC1 1 3 false =
      some (BuildResult.err BuildError.blockNotFound, emptyDiff)) ∧
    emptyDiff = emptyDiff :=
  ⟨by decide,
   C1_amended_early_failure envC1 1 3 false BuildError.blockNotFound emptyDiff
     (by decide) (Or.inl rfl)⟩

theorem buildQuorumChainlockInfo_returns_true (env : Env) (bi : BlockIndex)
    (qs : List Commitment) (b : Bool) (m : List (Nat × Finset ℕ))
    (h : buildQuorumChainlockInfo env bi qs = some (b, m)) : b = true := by
  unfold buildQuorumChainlockInfo at h
  rcases hres : resolveWorkBlocks env bi qs 0 with _ | pairs <;>
    rw [hres] at h <;> simp_all

/-- Claim C10: whenever `BuildQuorumChainlockInfo` terminates (its quorum
lookups succeed), it returns true, so the chainlock-correlation error path
of `BuildSimplifiedMNListDiff` is unreachable. -/
theorem C10_chainlock_error_unreachable :
    (∀ (env : Env) (bi : BlockIndex) (qs : List Commitment) (b : Bool)
       (m : List (Nat × Finset ℕ)),
       buildQuorumChainlockInfo env bi qs = some (b, m) → b = true) ∧
    (∀ (env : Env) (b t : Nat) (ext : Bool) (d : CSimplifiedMNListDiff),
       buildSimplifiedMNListDiff env b t ext ≠
         some (BuildResult.err BuildError.chainlockCorrelationFailed, d)) := by
  constructor
  · exact buildQuorumChainlockInfo_returns_true
  · intro env b t ext d h
    simp only [buildSimplifiedMNListDiff] at h
    split at h
    · simp at h
    · split at h
      · simp at h
      · split at h
        · simp at h
        · split at h
          · simp at h
          · split at h
            · simp at h
            · split at h
              · simp at h
              · rename_i clStep clOk d4 heq
                split at h
                · rename_i hcond
                  split at heq
                  · split at heq
                    · simp at heq
                    · rename_i r heq2
                      obtain ⟨r1, r2⟩ := r
                      have hr := buildQuorumChainlockInfo_returns_true _ _ _ _ _ heq2
                      simp only [Option.some.injEq, Prod.mk.injEq] at heq
                      obtain ⟨hc, -⟩ := heq
                      subst hc
                      subst hr
                      simp at hcond
                  · simp only [Option.some.injEq, Prod.mk.injEq] at heq
                    obtain ⟨hc, -⟩ := heq
                    subst hc
                    simp at hcond
                · split at h
                  · simp at h
                  · split at h
                    · simp at h
                    · simp at h

/-- Witness for C10 at a concrete input: the correlator applied to an empty
new-quorum list returns true, and a concrete top-level call does not return
the chainlock-correlation error. -/
theorem C10_chainlock_error_unreachable_witness :
    (true : Bool) = true ∧
    buildSimplifiedMNListDiff envCL 1 1 false ≠
      some (BuildResult.err BuildError.chainlockCorrelationFailed, emptyDiff) :=
  ⟨C10_chainlock_error_unreachable.1 envCL ⟨1, 1⟩ [] true [] (by decide),
   C10_chainlock_error_unreachable.2 envCL 1 1 false emptyDiff⟩

theorem smeEqNoPayout_iff (a b : CSimplifiedMNListEntry) :
    smeEqNoPayout a b = true ↔
      (a.proRegTxHash = b.proRegTxHash ∧ a.confirmedHash = b.confirmedHash ∧
       a.service = b.service ∧ a.pubKeyOperator = b.pubKeyOperator ∧
       a.keyIDVoting = b.keyIDVoting ∧ a.isValid = b.isValid ∧
       a.nVersion = b.nVersion ∧ a.nType = b.nType ∧
       a.platformHTTPPort = b.platformHTTPPort ∧
       a.platformNodeID = b.platformNodeID) := by
  simp only [smeEqNoPayout, Bool.and_eq_true, beq_iff_eq]
  tauto

/-- Claim C5: for a validator present in both snapshots, the target-side
projected entry is included in the entry diff exactly when the two entries
differ on some field other than the payout scripts, or extended mode is on
and a payout script differs; and `mnList` is exactly the per-record
decisions over the target snapshot, storing target-side entries. -/
theorem C5_entry_diff_rule (fromL toL : CDeterministicMNList) (extended : Bool)
    (toPtr fromPtr : CDeterministicMN)
    (hfind : fromL.getMN toPtr.proTxHash = some fromPtr) :
    (buildSimplifiedDiff fromL toL extended).mnList =
      toL.entries.filterMap (diffDecision fromL extended) ∧
    diffDecision fromL extended toPtr =
      (if ¬((CSimplifiedMNListEntry.ofDMN toPtr).proRegTxHash =
              (CSimplifiedMNListEntry.ofDMN fromPtr).proRegTxHash ∧
            (CSimplifiedMNListEntry.ofDMN toPtr).confirmedHash =
              (CSimplifiedMNListEntry.ofDMN fromPtr).confirmedHash ∧
            (CSimplifiedMNListEntry.ofDMN toPtr).service =
              (CSimplifiedMNListEntry.ofDMN fromPtr).service ∧
            (CSimplifiedMNListEntry.ofDMN toPtr).pubKeyOperator =
              (CSimplifiedMNListEntry.ofDMN fromPtr).pubKeyOperator ∧
            (CSimplifiedMNListEntry.ofDMN toPtr).keyIDVoting =
              (CSimplifiedMNListEntry.ofDMN fromPtr).keyIDVoting ∧
            (CSimplifiedMNListEntry.ofDMN toPtr).isValid =
              (CSimplifiedMNListEntry.ofDMN fromPtr).isValid ∧
            (CSimplifiedMNListEntry.ofDMN toPtr).nVersion =
              (CSimplifiedMNListEntry.ofDMN fromPtr).nVersion ∧
            (CSimplifiedMNListEntry.ofDMN toPtr).nType =
              (CSimplifiedMNListEntry.ofDMN fromPtr).nType ∧
            (CSimplifiedMNListEntry.ofDMN toPtr).platformHTTPPort =
              (CSimplifiedMNListEntry.ofDMN fromPtr).platformHTTPPort ∧
            (CSimplifiedMNListEntry.ofDMN toPtr).platformNodeID =
              (CSimplifiedMNListEntry.ofDMN fromPtr).platformNodeID) ∨
          (extended = true ∧
            ((CSimplifiedMNListEntry.ofDMN toPtr).scriptPayout ≠
               (CSimplifiedMNListEntry.ofDMN fromPtr).scriptPayout ∨
             (CSimplifiedMNListEntry.ofDMN toPtr).scriptOperatorPayout ≠
               (CSimplifiedMNListEntry.ofDMN fromPtr).scriptOperatorPayout))
       then some (CSimplifiedMNListEntry.ofDMN toPtr) else none) := by
  refine ⟨rfl, ?_⟩
  simp only [diffDecision, hfind]
  refine if_congr ?_ rfl rfl
  simp only [Bool.or_eq_true, Bool.and_eq_true, Bool.not_eq_true',
    Bool.eq_false_iff, ne_eq, bne_iff_ne, smeEqNoPayout_iff]

/-- Witness for C5 at a concrete input: masternode 100 changes its service
address between base and target; extended mode off. -/
theorem C5_entry_diff_rule_witness :
    (buildSimplifiedDiff fromLC5 ⟨2, [toPtrC5]⟩ false).mnList =
      (CDeterministicMNList.mk 2 [toPtrC5]).entries.filterMap
        (diffDecision fromLC5 false) ∧
    diffDecision fromLC5 false toPtrC5 =
      (if ¬((CSimplifiedMNListEntry.ofDMN toPtrC5).proRegTxHash =
              (CSimplifiedMNListEntry.ofDMN (mkDMN 100 7)).proRegTxHash ∧
            (CSimplifiedMNListEntry.ofDMN toPtrC5).confirmedHash =
              (CSimplifiedMNListEntry.ofDMN (mkDMN 100 7)).confirmedHash ∧
            (CSimplifiedMNListEntry.ofDMN toPtrC5).service =
              (CSimplifiedMNListEntry.ofDMN (mkDMN 100 7)).service ∧
            (CSimplifiedMNListEntry.ofDMN toPtrC5).pubKeyOperator =
              (CSimplifiedMNListEntry.ofDMN (mkDMN 100 7)).pubKeyOperator ∧
            (CSimplifiedMNListEntry.ofDMN toPtrC5).keyIDVoting =
              (CSimplifiedMNListEntry.ofDMN (mkDMN 100 7)).keyIDVoting ∧
            (CSimplifiedMNListEntry.ofDMN toPtrC5).isValid =
              (CSimplifiedMNListEntry.ofDMN (mkDMN 100 7)).isValid ∧
            (CSimplifiedMNListEntry.ofDMN toPtrC5).nVersion =
              (CSimplifiedMNListEntry.ofDMN (mkDMN 100 7)).nVersion ∧
            (CSimplifiedMNListEntry.ofDMN toPtrC5).nType =
              (CSimplifiedMNListEntry.ofDMN (mkDMN 100 7)).nType ∧
            (CSimplifiedMNListEntry.ofDMN toPtrC5).platformHTTPPort =
              (CSimplifiedMNListEntry.ofDMN (mkDMN 100 7)).platformHTTPPort ∧
            (CSimplifiedMNListEntry.ofDMN toPtrC5).platformNodeID =
              (CSimplifiedMNListEntry.ofDMN (mkDMN 100 7)).platformNodeID) ∨
          (false = true ∧
            ((CSimplifiedMNListEntry.ofDMN toPtrC5).scriptPayout ≠
               (CSimplifiedMNListEntry.ofDMN (mkDMN 100 7)).scriptPayout ∨
             (CSimplifiedMNListEntry.ofDMN toPtrC5).scriptOperatorPayout ≠
               (CSimplifiedMNListEntry.ofDMN (mkDMN 100 7)).scriptOperatorPayout))
       then some (CSimplifiedMNListEntry.ofDMN toPtrC5) else none) :=
  C5_entry_diff_rule fromLC5 ⟨2, [toPtrC5]⟩ false toPtrC5 (mkDMN 100 7) (by decide)

theorem insertionSort_key_pairwise (xs : List CSimplifiedMNListEntry)
    (h : (xs.map (fun e => e.proRegTxHash)).Nodup) :
    ((List.insertionSort entryLe xs).map (fun e => e.proRegTxHash)).Pairwise (· < ·) := by
  have hs : List.Sorted entryLe (List.insertionSort entryLe xs) :=
    List.sorted_insertionSort entryLe xs
  have hperm : List.Perm (List.insertionSort entryLe xs) xs :=
    List.perm_insertionSort entryLe xs
  have hnd : ((List.insertionSort entryLe xs).map (fun e => e.proRegTxHash)).Nodup :=
    ((hperm.map _).nodup_iff).mpr h
  have hle : ((List.insertionSort entryLe xs).map
      (fun e => e.proRegTxHash)).Pairwise (· ≤ ·) :=
    List.pairwise_map.mpr hs
  have hne : ((List.insertionSort entryLe xs).map
      (fun e => e.proRegTxHash)).Pairwise (· ≠ ·) := hnd
  exact (hle.and hne).imp (fun hab => lt_of_le_of_ne hab.1 hab.2)

/-- Claim C9: both `CSimplifiedMNList` construction paths (explicit entry
vector, registry enumeration) produce a list strictly ascending in
`proRegTxHash` — sorted with no duplicate ids — given the snapshot
invariant that ids are unique. -/
theorem C9_list_sorted_nodup (es : List CSimplifiedMNListEntry)
    (l : CDeterministicMNList)
    (h1 : (es.map (fun e => e.proRegTxHash)).Nodup)
    (h2 : (l.entries.map (fun m => m.proTxHash)).Nodup) :
    ((CSimplifiedMNList.ofEntries es).mnList.map
      (fun e => e.proRegTxHash)).Pairwise (· < ·) ∧
    ((CSimplifiedMNList.ofDMNList l).mnList.map
      (fun e => e.proRegTxHash)).Pairwise (· < ·) := by
  constructor
  · exact insertionSort_key_pairwise es h1
  · apply insertionSort_key_pairwise
    have hmm : (l.entries.map CSimplifiedMNListEntry.ofDMN).map
        (fun e => e.proRegTxHash) = l.entries.map (fun m => m.proTxHash) := by
      rw [List.map_map]; rfl
    rw [hmm]; exact h2

/-- Witness for C9 at concrete inputs: two entries with ids 5 and 3, and a
registry snapshot with ids 9 and 2. -/
theorem C9_list_sorted_nodup_witness :
    ((CSimplifiedMNList.ofEntries [mkEntry 5, mkEntry 3]).mnList.map
      (fun e => e.proRegTxHash)).Pairwise (· < ·) ∧
    ((CSimplifiedMNList.ofDMNList ⟨1, [mkDMN 9 0, mkDMN 2 0]⟩).mnList.map
      (fun e => e.proRegTxHash)).Pairwise (· < ·) :=
  C9_list_sorted_nodup [mkEntry 5, mkEntry 3] ⟨1, [mkDMN 9 0, mkDMN 2 0]⟩
    (by decide) (by decide)

theorem refLt_trans {a b c : Nat × Nat} (hab : refLt a b) (hbc : refLt b c) :
    refLt a c := by
  unfold refLt at *
  omega

theorem refLt_of_not_of_ne {x y : Nat × Nat} (h1 : ¬refLt x y) (h2 : x ≠ y) :
    refLt y x := by
  rcases x with ⟨x1, x2⟩
  rcases y with ⟨y1, y2⟩
  rw [Ne, Prod.mk.injEq] at h2
  unfold refLt at *
  simp only [] at h1 h2 ⊢
  omega

theorem mem_setInsertRef (x z : Nat × Nat) :
    ∀ s, z ∈ setInsertRef x s ↔ z = x ∨ z ∈ s
  | [] => by simp [setInsertRef]
  | y :: rest => by
    rw [setInsertRef]
    split
    · simp [List.mem_cons]
    · split
      · rename_i hxy
        subst hxy
        simp [List.mem_cons]
      · simp only [List.mem_cons, mem_setInsertRef x z rest]
        tauto

theorem sorted_setInsertRef (x : Nat × Nat) :
    ∀ s, s.Pairwise refLt → (setInsertRef x s).Pairwise refLt
  | [] => by simp [setInsertRef]
  | y :: rest => by
    intro hs
    rw [setInsertRef]
    rcases List.pairwise_cons.mp hs with ⟨hy, hrest⟩
    split
    · rename_i hxy
      refine List.pairwise_cons.mpr ⟨?_, hs⟩
      intro z hz
      rcases List.mem_cons.mp hz with rfl | hz'
      · exact hxy
      · exact refLt_trans hxy (hy z hz')
    · split
      · exact hs
      · rename_i hnlt hne
        refine List.pairwise_cons.mpr ⟨?_, sorted_setInsertRef x rest hrest⟩
        intro z hz
        rcases (mem_setInsertRef x z rest).mp hz with rfl | hz'
        · exact refLt_of_not_of_ne hnlt hne
        · exact hy z hz'

theorem sorted_foldl_insert :
    ∀ (l init : List (Nat × Nat)), init.Pairwise refLt →
      (l.foldl (fun s x => setInsertRef x s) init).Pairwise refLt
  | [], _ => fun h => h
  | x :: rest, init => fun h =>
      sorted_foldl_insert rest (setInsertRef x init) (sorted_setInsertRef x init h)

theorem sorted_refSetOf (l : List (Nat × Nat)) : (refSetOf l).Pairwise refLt :=
  sorted_foldl_insert l [] List.Pairwise.nil

theorem newQuorumsLoop_refs (env : Env) (baseSet : List (Nat × Nat))
    (hcons : MinedCommitmentConsistent env) :
    ∀ (l : List (Nat × Nat)) (acc : List Commitment),
      ∃ r, (newQuorumsLoop env baseSet l acc).2.map refOf = acc.map refOf ++ r ∧
           r.Sublist l
  | [], acc => ⟨[], by simp [newQuorumsLoop], List.nil_sublist _⟩
  | p :: rest, acc => by
    rw [newQuorumsLoop]
    split
    · obtain ⟨r, hr, hsub⟩ := newQuorumsLoop_refs env baseSet hcons rest acc
      exact ⟨r, hr, hsub.cons p⟩
    · split
      · exact ⟨[], by simp, List.nil_sublist _⟩
      · rename_i qc hmc
        obtain ⟨r, hr, hsub⟩ := newQuorumsLoop_refs env baseSet hcons rest (acc ++ [qc])
        obtain ⟨ht, hh⟩ := hcons p.1 p.2 qc hmc
        refine ⟨p :: r, ?_, hsub.cons₂ p⟩
        rw [hr]
        simp [refOf, ht, hh]

/-- Claim C7 as amended: `newQuorums` is ordered by ascending `(type, hash)`
under the set ordering — grouped by quorum type in ascending type order and
within each type ascending by quorum hash — independent of the enumeration's
insertion order (assuming the commitment store returns commitments carrying
the requested ref). -/
theorem C7_amended_new_quorums_sorted (env : Env) (b t : BlockIndex)
    (hcons : MinedCommitmentConsistent env) :
    ((buildQuorumsDiff env b t).2.2.map refOf).Pairwise refLt := by
  unfold buildQuorumsDiff
  obtain ⟨r, hr, hsub⟩ :=
    newQuorumsLoop_refs env (refSetOf (quorumRefList (env.getCommitments b))) hcons
      (refSetOf (quorumRefList (env.getCommitments t))) []
  simp only []
  rw [hr]
  simp only [List.map_nil, List.nil_append]
  exact List.Pairwise.sublist hsub (sorted_refSetOf _)

/-- Counterexample to claim C7 as stated: the target enumeration reports
type-1 quorum hashes in insertion order 5 then 3, but `newQuorums` comes out
in set order 3 then 5, so its order does not follow the enumeration's
insertion order within a type. -/
theorem C7_counterexample :
    ((buildQuorumsDiff envC7 ⟨1, 1⟩ ⟨2, 2⟩).2.2.map refOf = [(1, 3), (1, 5)]) ∧
    (specNewQuorumOrder envC7 ⟨1, 1⟩ ⟨2, 2⟩ = [(1, 5), (1, 3)]) ∧
    (buildQuorumsDiff envC7 ⟨1, 1⟩ ⟨2, 2⟩).2.2.map refOf ≠
      specNewQuorumOrder envC7 ⟨1, 1⟩ ⟨2, 2⟩ := by
  refine ⟨by decide, by decide, by decide⟩

/-- Witness for the amended C7 at a concrete input. -/
theorem C7_amended_new_quorums_sorted_witness :
    ((buildQuorumsDiff envC7 ⟨1, 1⟩ ⟨2, 2⟩).2.2.map refOf).Pairwise refLt :=
  C7_amended_new_quorums_sorted envC7 ⟨1, 1⟩ ⟨2, 2⟩
    (by intro t h c hc; cases hc; exact ⟨rfl, rfl⟩)

theorem smeEqNoPayout_refl (a : CSimplifiedMNListEntry) : smeEqNoPayout a a = true := by
  simp [smeEqNoPayout]

theorem find_self (es : List CDeterministicMN)
    (hnd : (es.map (fun m => m.proTxHash)).Nodup)
    (m : CDeterministicMN) (hm : m ∈ es) :
    es.find? (fun x => x.proTxHash == m.proTxHash) = some m := by
  induction es with
  | nil => cases hm
  | cons a rest ih =>
    simp only [List.map_cons, List.nodup_cons, List.mem_map] at hnd
    rw [List.find?]
    by_cases ha : a.proTxHash = m.proTxHash
    · simp only [ha, beq_self_eq_true]
      rcases List.mem_cons.mp hm with rfl | hmr
      · rfl
      · exact absurd ⟨m, hmr, ha.symm⟩ hnd.1
    · have hb : (a.proTxHash == m.proTxHash) = false := by
        simpa using ha
      rw [hb]
      rcases List.mem_cons.mp hm with rfl | hmr
      · exact absurd rfl ha
      · exact ih hnd.2 hmr

theorem getMN_self (l : CDeterministicMNList)
    (hnd : (l.entries.map (fun m => m.proTxHash)).Nodup)
    (m : CDeterministicMN) (hm : m ∈ l.entries) :
    l.getMN m.proTxHash = some m :=
  find_self l.entries hnd m hm

theorem diffDecision_self (l : CDeterministicMNList)
    (hnd : (l.entries.map (fun m => m.proTxHash)).Nodup)
    (m : CDeterministicMN) (hm : m ∈ l.entries) :
    diffDecision l false m = none := by
  unfold diffDecision
  rw [getMN_self l hnd m hm]
  simp [smeEqNoPayout_refl]

theorem buildSimplifiedDiff_self_mnList (l : CDeterministicMNList)
    (hnd : (l.entries.map (fun m => m.proTxHash)).Nodup) :
    (buildSimplifiedDiff l l false).mnList = [] := by
  unfold buildSimplifiedDiff
  simp only []
  exact List.filterMap_eq_nil.mpr (fun m hm => diffDecision_self l hnd m hm)

theorem buildSimplifiedDiff_self_deleted (l : CDeterministicMNList)
    (hnd : (l.entries.map (fun m => m.proTxHash)).Nodup) :
    (buildSimplifiedDiff l l false).deletedMNs = [] := by
  unfold buildSimplifiedDiff
  simp only []
  have hf : l.entries.filter (fun m => (l.getMN m.proTxHash).isNone) = [] := by
    refine List.filter_eq_nil.mpr (fun m hm => ?_)
    rw [getMN_self l hnd m hm]
    simp
  rw [hf]
  rfl

theorem newQuorumsLoop_all_mem (env : Env) (S : List (Nat × Nat)) :
    ∀ (l : List (Nat × Nat)) (acc : List Commitment), (∀ p ∈ l, p ∈ S) →
      newQuorumsLoop env S l acc = (true, acc)
  | [], acc, _ => rfl
  | p :: rest, acc, h => by
    rw [newQuorumsLoop, if_pos (h p (List.mem_cons_self p rest))]
    exact newQuorumsLoop_all_mem env S rest acc
      (fun q hq => h q (List.mem_cons_of_mem _ hq))

theorem buildQuorumsDiff_self (env : Env) (bi : BlockIndex) :
    buildQuorumsDiff env bi bi = (true, [], []) := by
  unfold buildQuorumsDiff
  simp only []
  rw [newQuorumsLoop_all_mem env _ _ [] (fun p hp => hp)]
  rw [List.filter_eq_nil.mpr (fun p hp => by simp [hp])]

/-- Claim C8: building the diff from a block to itself succeeds and yields
empty entry-diff and quorum-diff lists, given a resolvable on-chain target
hash, unique registry ids, and a readable nonempty block. -/
theorem C8_idempotent (env : Env) (h : Nat) (bi : BlockIndex)
    (h0 : h ≠ 0)
    (hlk : env.lookupBlockIndex h = some bi)
    (hc : env.chainContains bi = true)
    (hnd : ((env.getListForBlock bi).entries.map (fun m => m.proTxHash)).Nodup)
    (c : Nat) (txs : List Nat)
    (hrb : env.readBlock bi = some (c :: txs)) :
    (buildSimplifiedMNListDiff env h h false).map
      (fun r => (r.1, r.2.mnList, r.2.deletedMNs, r.2.deletedQuorums, r.2.newQuorums)) =
    some (BuildResult.ok, [], [], [], []) := by
  have hmn := buildSimplifiedDiff_self_mnList (env.getListForBlock bi) hnd
  have hdel := buildSimplifiedDiff_self_deleted (env.getListForBlock bi) hnd
  simp only [buildSimplifiedMNListDiff, if_neg h0, hlk, hc, Bool.not_true,
    Bool.or_self, Bool.false_eq_true, if_false, lt_irrefl, buildQuorumsDiff_self, hrb]
  cases hv : env.isV20Active bi <;>
    simp [hv, buildQuorumChainlockInfo, resolveWorkBlocks, buildCLSigGroups,
      dedupKeys, hmn, hdel]

/-- Witness for C8 at a concrete input: block 2 with one masternode and one
active quorum, diffed against itself. -/
theorem C8_idempotent_witness :
    (buildSimplifiedMNListDiff envC8 2 2 false).map
      (fun r => (r.1, r.2.mnList, r.2.deletedMNs, r.2.deletedQuorums, r.2.newQuorums)) =
    some (BuildResult.ok, [], [], [], []) :=
  C8_idempotent envC8 2 ⟨2, 2⟩ (by decide) (by decide) (by decide) (by decide)
    9 [] (by decide)

theorem lookupCLSig_nil (s : Nat) : lookupCLSig [] s = ∅ := rfl

theorem lookupCLSig_insert_self :
    ∀ (m : List (Nat × Finset ℕ)) (k : Nat) (v : Finset ℕ),
      lookupCLSig (insertCLSig m k v) k = lookupCLSig m k ∪ v
  | [], k, v => by
    simp [insertCLSig, lookupCLSig]
  | (q, w) :: rest, k, v => by
    rw [insertCLSig]
    split
    · rename_i hk
      subst hk
      simp [lookupCLSig]
    · rename_i hk
      have hb : (q == k) = false := by simpa using hk
      simp only [lookupCLSig, List.find?, hb]
      exact lookupCLSig_insert_self rest k v

theorem lookupCLSig_insert_ne :
    ∀ (m : List (Nat × Finset ℕ)) (k : Nat) (v : Finset ℕ) (s : Nat), k ≠ s →
      lookupCLSig (insertCLSig m k v) s = lookupCLSig m s
  | [], k, v, s, hks => by
    have hb : (k == s) = false := by simpa using hks
    simp [insertCLSig, lookupCLSig, List.find?, hb]
  | (q, w) :: rest, k, v, s, hks => by
    rw [insertCLSig]
    split
    · rename_i hk
      subst hk
      have hb : (q == s) = false := by simpa using hks
      simp [lookupCLSig, List.find?, hb]
    · rename_i hk
      by_cases hqs : q = s
      · subst hqs
        simp [lookupCLSig, List.find?]
      · have hb : (q == s) = false := by simpa using hqs
        simp only [lookupCLSig, List.find?, hb]
        exact lookupCLSig_insert_ne rest k v s hks

theorem mem_keys_insertCLSig :
    ∀ (m : List (Nat × Finset ℕ)) (k : Nat) (v : Finset ℕ) (x : Nat),
      x ∈ (insertCLSig m k v).map Prod.fst ↔ x = k ∨ x ∈ m.map Prod.fst
  | [], k, v, x => by simp [insertCLSig]
  | (q, w) :: rest, k, v, x => by
    rw [insertCLSig]
    split
    · rename_i hk
      subst hk
      simp [List.mem_cons]
    · simp only [List.map_cons, List.mem_cons, mem_keys_insertCLSig rest k v x]
      tauto

theorem keys_insertCLSig_nodup :
    ∀ (m : List (Nat × Finset ℕ)) (k : Nat) (v : Finset ℕ),
      (m.map Prod.fst).Nodup → ((insertCLSig m k v).map Prod.fst).Nodup
  | [], k, v, _ => by simp [insertCLSig]
  | (q, w) :: rest, k, v, hnd => by
    simp only [List.map_cons, List.nodup_cons] at hnd
    rw [insertCLSig]
    split
    · rename_i hk
      subst hk
      simp only [List.map_cons, List.nodup_cons]
      exact hnd
    · rename_i hk
      simp only [List.map_cons, List.nodup_cons, mem_keys_insertCLSig rest k v q]
      refine ⟨?_, keys_insertCLSig_nodup rest k v hnd.2⟩
      rintro (rfl | hq)
      · exact hk rfl
      · exact hnd.1 hq

theorem mem_bigUnion :
    ∀ (m : List (Nat × Finset ℕ)) (i : ℕ), i ∈ bigUnion m ↔ ∃ g ∈ m, i ∈ g.2
  | [], i => by simp [bigUnion]
  | g :: rest, i => by
    simp only [bigUnion, List.foldr_cons, Finset.mem_union, List.mem_cons]
    rw [show rest.foldr (fun g acc => g.2 ∪ acc) ∅ = bigUnion rest from rfl,
      mem_bigUnion rest i]
    constructor
    · rintro (h | ⟨g', hg', hi⟩)
      · exact ⟨g, Or.inl rfl, h⟩
      · exact ⟨g', Or.inr hg', hi⟩
    · rintro ⟨g', hg' | hg', hi⟩
      · subst hg'
        exact Or.inl hi
      · exact Or.inr ⟨g', hg', hi⟩

theorem subset_bigUnion (m : List (Nat × Finset ℕ)) (g : Nat × Finset ℕ)
    (hg : g ∈ m) : g.2 ⊆ bigUnion m := by
  intro i hi
  exact (mem_bigUnion m i).mpr ⟨g, hg, hi⟩

theorem bigUnion_insertCLSig :
    ∀ (m : List (Nat × Finset ℕ)) (k : Nat) (v : Finset ℕ),
      bigUnion (insertCLSig m k v) = v ∪ bigUnion m := by
  intro m k v
  ext i
  simp only [Finset.mem_union, mem_bigUnion]
  induction m with
  | nil =>
    simp [insertCLSig]
  | cons g rest ih =>
    rcases g with ⟨q, w⟩
    rw [insertCLSig]
    split
    · rename_i hk
      subst hk
      simp only [List.mem_cons]
      constructor
      · rintro ⟨g', hg' | hg', hi⟩
        · subst hg'
          rcases Finset.mem_union.mp hi with hw | hv
          · exact Or.inr ⟨(q, w), Or.inl rfl, hw⟩
          · exact Or.inl hv
        · exact Or.inr ⟨g', Or.inr hg', hi⟩
      · rintro (hv | ⟨g', hg' | hg', hi⟩)
        · exact ⟨(q, w ∪ v), Or.inl rfl, Finset.mem_union_right _ hv⟩
        · subst hg'
          exact ⟨(q, w ∪ v), Or.inl rfl, Finset.mem_union_left _ hi⟩
        · exact ⟨g', Or.inr hg', hi⟩
    · rename_i hk
      simp only [List.mem_cons] at ih ⊢
      constructor
      · rintro ⟨g', hg' | hg', hi⟩
        · subst hg'
          exact Or.inr ⟨(q, w), Or.inl rfl, hi⟩
        · rcases ih.mp ⟨g', hg', hi⟩ with hv | ⟨g'', hg'', hi'⟩
          · exact Or.inl hv
          · exact Or.inr ⟨g'', Or.inr hg'', hi'⟩
      · rintro (hv | ⟨g', hg' | hg', hi⟩)
        · rcases ih.mpr (Or.inl hv) with ⟨g'', hg'', hi'⟩
          exact ⟨g'', Or.inr hg'', hi'⟩
        · subst hg'
          exact ⟨(q, w), Or.inl rfl, hi⟩
        · rcases ih.mpr (Or.inr ⟨g', hg', hi⟩) with ⟨g'', hg'', hi'⟩
          exact ⟨g'', Or.inr hg'', hi'⟩

theorem disjoint_bigUnion_of_forall (w : Finset ℕ) :
    ∀ (m : List (Nat × Finset ℕ)), (∀ g ∈ m, Disjoint w g.2) →
      Disjoint w (bigUnion m)
  | [], _ => by simp [bigUnion]
  | g :: rest, h => by
    rw [show bigUnion (g :: rest) = g.2 ∪ bigUnion rest from rfl]
    rw [Finset.disjoint_union_right]
    exact ⟨h g (List.mem_cons_self g rest),
      disjoint_bigUnion_of_forall w rest (fun g' hg' => h g' (List.mem_cons_of_mem _ hg'))⟩

theorem snd_mem_insertCLSig_subset :
    ∀ (m : List (Nat × Finset ℕ)) (k : Nat) (v : Finset ℕ) (g : Nat × Finset ℕ),
      g ∈ insertCLSig m k v → g.2 ⊆ v ∪ bigUnion m
  | [], k, v, g => by
    intro hg
    simp only [insertCLSig, List.mem_cons, List.not_mem_nil, or_false] at hg
    subst hg
    exact Finset.subset_union_left
  | (q, w) :: rest, k, v, g => by
    intro hg
    rw [insertCLSig] at hg
    have hbu : bigUnion ((q, w) :: rest) = w ∪ bigUnion rest := rfl
    split at hg
    · rename_i hk
      subst hk
      rcases List.mem_cons.mp hg with rfl | hg'
      · rw [hbu]
        intro i hi
        rcases Finset.mem_union.mp hi with hw | hv
        · exact Finset.mem_union_right _ (Finset.mem_union_left _ hw)
        · exact Finset.mem_union_left _ hv
      · rw [hbu]
        intro i hi
        exact Finset.mem_union_right _
          (Finset.mem_union_right _ (subset_bigUnion rest g hg' hi))
    · rcases List.mem_cons.mp hg with rfl | hg'
      · rw [hbu]
        intro i hi
        exact Finset.mem_union_right _ (Finset.mem_union_left _ hi)
      · have := snd_mem_insertCLSig_subset rest k v g hg'
        rw [hbu]
        intro i hi
        rcases Finset.mem_union.mp (this hi) with hv | hr
        · exact Finset.mem_union_left _ hv
        · exact Finset.mem_union_right _ (Finset.mem_union_right _ hr)

theorem pairwise_disjoint_insertCLSig :
    ∀ (m : List (Nat × Finset ℕ)) (k : Nat) (v : Finset ℕ),
      m.Pairwise (fun g g' => Disjoint g.2 g'.2) →
      Disjoint v (bigUnion m) →
      (insertCLSig m k v).Pairwise (fun g g' => Disjoint g.2 g'.2)
  | [], k, v, _, _ => by simp [insertCLSig]
  | (q, w) :: rest, k, v, hpw, hdis => by
    rcases List.pairwise_cons.mp hpw with ⟨hw, hrest⟩
    have hbu : bigUnion ((q, w) :: rest) = w ∪ bigUnion rest := rfl
    rw [hbu, Finset.disjoint_union_right] at hdis
    rw [insertCLSig]
    split
    · rename_i hk
      subst hk
      refine List.pairwise_cons.mpr ⟨?_, hrest⟩
      intro g hg
      rw [Finset.disjoint_union_left]
      exact ⟨hw g hg,
        Finset.disjoint_of_subset_right (subset_bigUnion rest g hg) hdis.2⟩
    · refine List.pairwise_cons.mpr
        ⟨?_, pairwise_disjoint_insertCLSig rest k v hrest hdis.2⟩
      intro g hg
      refine Finset.disjoint_of_subset_right (snd_mem_insertCLSig_subset rest k v g hg) ?_
      rw [Finset.disjoint_union_right]
      exact ⟨hdis.1.symm, disjoint_bigUnion_of_forall w rest hw⟩

theorem mem_foldl_dedup (pairs : List (BlockIndex × Nat)) :
    ∀ (l : List (BlockIndex × Nat)) (acc : List BlockIndex) (x : BlockIndex),
      x ∈ l.foldl (fun a p => if p.1 ∈ a then a else a ++ [p.1]) acc ↔
        x ∈ acc ∨ ∃ p ∈ l, p.1 = x
  | [], acc, x => by simp
  | p :: rest, acc, x => by
    rw [List.foldl_cons]
    split
    · rename_i hmem
      rw [mem_foldl_dedup pairs rest acc x]
      simp only [List.mem_cons]
      constructor
      · rintro (h | ⟨p', hp', hx⟩)
        · exact Or.inl h
        · exact Or.inr ⟨p', Or.inr hp', hx⟩
      · rintro (h | ⟨p', hp' | hp', hx⟩)
        · exact Or.inl h
        · subst hp'
          subst hx
          exact Or.inl hmem
        · exact Or.inr ⟨p', hp', hx⟩
    · rw [mem_foldl_dedup pairs rest (acc ++ [p.1]) x]
      simp only [List.mem_append, List.mem_cons, List.not_mem_nil, or_false]
      constructor
      · rintro ((h | h) | ⟨p', hp', hx⟩)
        · exact Or.inl h
        · exact Or.inr ⟨p, Or.inl rfl, h.symm⟩
        · exact Or.inr ⟨p', Or.inr hp', hx⟩
      · rintro (h | ⟨p', hp' | hp', hx⟩)
        · exact Or.inl (Or.inl h)
        · subst hp'
          exact Or.inl (Or.inr hx.symm)
        · exact Or.inr ⟨p', hp', hx⟩

theorem mem_dedupKeys (pairs : List (BlockIndex × Nat)) (x : BlockIndex) :
    x ∈ dedupKeys pairs ↔ ∃ p ∈ pairs, p.1 = x := by
  rw [dedupKeys, mem_foldl_dedup pairs pairs [] x]
  simp

theorem nodup_foldl_dedup :
    ∀ (l : List (BlockIndex × Nat)) (acc : List BlockIndex), acc.Nodup →
      (l.foldl (fun a p => if p.1 ∈ a then a else a ++ [p.1]) acc).Nodup
  | [], _, h => h
  | p :: rest, acc, h => by
    rw [List.foldl_cons]
    split
    · exact nodup_foldl_dedup rest acc h
    · rename_i hmem
      refine nodup_foldl_dedup rest (acc ++ [p.1]) ?_
      simp [List.nodup_append, h, hmem]

theorem dedupKeys_nodup (pairs : List (BlockIndex × Nat)) : (dedupKeys pairs).Nodup :=
  nodup_foldl_dedup pairs [] List.nodup_nil

theorem mem_blockIdxSet (pairs : List (BlockIndex × Nat)) (b : BlockIndex) (i : ℕ) :
    i ∈ blockIdxSet pairs b ↔ ∃ p ∈ pairs, p.1 = b ∧ p.2 = i := by
  unfold blockIdxSet
  simp only [List.mem_toFinset, List.mem_map, List.mem_filter]
  constructor
  · rintro ⟨p, ⟨hp, hb⟩, hi⟩
    exact ⟨p, hp, by simpa using hb, hi⟩
  · rintro ⟨p, hp, hb, hi⟩
    exact ⟨p, ⟨hp, by simpa using hb⟩, hi⟩

theorem blockIdxSet_disjoint (pairs : List (BlockIndex × Nat))
    (hnd : (pairs.map Prod.snd).Nodup) (b b' : BlockIndex) (hne : b ≠ b') :
    Disjoint (blockIdxSet pairs b) (blockIdxSet pairs b') := by
  rw [Finset.disjoint_left]
  intro i hi hi'
  obtain ⟨p, hp, hpb, hpi⟩ := (mem_blockIdxSet pairs b i).mp hi
  obtain ⟨p', hp', hpb', hpi'⟩ := (mem_blockIdxSet pairs b' i).mp hi'
  have hpp : p = p' :=
    List.inj_on_of_nodup_map hnd hp hp' (by rw [hpi, hpi'])
  exact hne (hpb ▸ hpb' ▸ congrArg Prod.fst hpp)

theorem lookup_foldl_insert (env : Env) (pairs : List (BlockIndex × Nat)) :
    ∀ (bs : List BlockIndex) (m : List (Nat × Finset ℕ)) (s : Nat),
      lookupCLSig
        (bs.foldl (fun m b => insertCLSig m (sigOfBlock env b) (blockIdxSet pairs b)) m) s =
      lookupCLSig m s ∪
        (bs.filter (fun b => sigOfBlock env b = s)).foldr
          (fun b acc => blockIdxSet pairs b ∪ acc) ∅
  | [], m, s => by simp
  | b :: rest, m, s => by
    rw [List.foldl_cons, lookup_foldl_insert env pairs rest _ s]
    by_cases hbs : sigOfBlock env b = s
    · rw [List.filter_cons_of_pos (by simpa using hbs), List.foldr_cons]
      subst hbs
      rw [lookupCLSig_insert_self m (sigOfBlock env b) (blockIdxSet pairs b),
        Finset.union_assoc]
    · rw [List.filter_cons_of_neg (by simpa using hbs)]
      rw [lookupCLSig_insert_ne m (sigOfBlock env b) (blockIdxSet pairs b) s hbs]

theorem keys_foldl_insert_nodup (env : Env) (pairs : List (BlockIndex × Nat)) :
    ∀ (bs : List BlockIndex) (m : List (Nat × Finset ℕ)),
      (m.map Prod.fst).Nodup →
      ((bs.foldl (fun m b => insertCLSig m (sigOfBlock env b) (blockIdxSet pairs b)) m).map
        Prod.fst).Nodup
  | [], _, h => h
  | b :: rest, m, h =>
    keys_foldl_insert_nodup env pairs rest _ (keys_insertCLSig_nodup m _ _ h)

theorem mem_bigUnionList :
    ∀ (l : List (Finset ℕ)) (i : ℕ), i ∈ bigUnionList l ↔ ∃ s ∈ l, i ∈ s
  | [], i => by simp [bigUnionList]
  | s :: rest, i => by
    simp only [bigUnionList, List.foldr_cons, Finset.mem_union, List.mem_cons]
    rw [show rest.foldr (fun s acc => s ∪ acc) ∅ = bigUnionList rest from rfl,
      mem_bigUnionList rest i]
    constructor
    · rintro (h | ⟨s', hs', hi⟩)
      · exact ⟨s, Or.inl rfl, h⟩
      · exact ⟨s', Or.inr hs', hi⟩
    · rintro ⟨s', hs' | hs', hi⟩
      · subst hs'
        exact Or.inl hi
      · exact Or.inr ⟨s', hs', hi⟩

theorem foldl_insert_invariant (env : Env) (pairs : List (BlockIndex × Nat)) :
    ∀ (bs : List BlockIndex) (m : List (Nat × Finset ℕ)),
      m.Pairwise (fun g g' => Disjoint g.2 g'.2) →
      (∀ b ∈ bs, Disjoint (blockIdxSet pairs b) (bigUnion m)) →
      bs.Pairwise (fun b b' => Disjoint (blockIdxSet pairs b) (blockIdxSet pairs b')) →
      ((bs.foldl (fun m b => insertCLSig m (sigOfBlock env b) (blockIdxSet pairs b)) m).Pairwise
          (fun g g' => Disjoint g.2 g'.2)) ∧
      bigUnion
          (bs.foldl (fun m b => insertCLSig m (sigOfBlock env b) (blockIdxSet pairs b)) m) =
        bigUnion m ∪ bigUnionList (bs.map (blockIdxSet pairs))
  | [], m, hm, _, _ => ⟨hm, by simp [bigUnionList]⟩
  | b :: rest, m, hm, hdis, hbs => by
    rcases List.pairwise_cons.mp hbs with ⟨hb, hrest⟩
    have hdb : Disjoint (blockIdxSet pairs b) (bigUnion m) :=
      hdis b (List.mem_cons_self b rest)
    have hm' := pairwise_disjoint_insertCLSig m (sigOfBlock env b) (blockIdxSet pairs b) hm hdb
    have hbu := bigUnion_insertCLSig m (sigOfBlock env b) (blockIdxSet pairs b)
    have hdis' : ∀ b' ∈ rest,
        Disjoint (blockIdxSet pairs b')
          (bigUnion (insertCLSig m (sigOfBlock env b) (blockIdxSet pairs b))) := by
      intro b' hb'
      rw [hbu, Finset.disjoint_union_right]
      exact ⟨(hb b' hb').symm, hdis b' (List.mem_cons_of_mem _ hb')⟩
    obtain ⟨hp, hu⟩ := foldl_insert_invariant env pairs rest _ hm' hdis' hrest
    rw [List.foldl_cons]
    refine ⟨hp, ?_⟩
    rw [hu, hbu, List.map_cons]
    rw [show bigUnionList (blockIdxSet pairs b :: rest.map (blockIdxSet pairs)) =
      blockIdxSet pairs b ∪ bigUnionList (rest.map (blockIdxSet pairs)) from rfl]
    ext i
    simp only [Finset.mem_union]
    tauto

theorem resolveWorkBlocks_snd (env : Env) (bi : BlockIndex) :
    ∀ (qs : List Commitment) (k : Nat) (pairs : List (BlockIndex × Nat)),
      resolveWorkBlocks env bi qs k = some pairs →
      pairs.map Prod.snd = List.range' k qs.length
  | [], k, pairs => by
    intro h
    simp only [resolveWorkBlocks, Option.some.injEq] at h
    subst h
    simp
  | e :: rest, k, pairs => by
    intro h
    rw [resolveWorkBlocks] at h
    rcases hgq : env.getQuorum e.llmqType e.quorumHash with _ | quorum
    · rw [hgq] at h
      exact absurd h (by simp)
    · rw [hgq] at h
      rcases hrec : resolveWorkBlocks env bi rest (k + 1) with _ | tl
      · rw [hrec] at h
        exact absurd h (by simp)
      · rw [hrec] at h
        simp only [Option.some.injEq] at h
        subst h
        rw [List.map_cons, resolveWorkBlocks_snd env bi rest (k + 1) tl hrec]
        rw [List.length_cons, List.range'_succ]

theorem bigUnionList_blockIdxSets (pairs : List (BlockIndex × Nat)) :
    bigUnionList ((dedupKeys pairs).map (blockIdxSet pairs)) =
      (pairs.map Prod.snd).toFinset := by
  ext i
  rw [mem_bigUnionList]
  simp only [List.mem_map, List.mem_toFinset]
  constructor
  · rintro ⟨s, ⟨b, hb, rfl⟩, hi⟩
    obtain ⟨p, hp, hpb, hpi⟩ := (mem_blockIdxSet pairs b i).mp hi
    exact ⟨p, hp, hpi⟩
  · rintro ⟨p, hp, hpi⟩
    refine ⟨blockIdxSet pairs p.1, ⟨p.1, ?_, rfl⟩, ?_⟩
    · exact (mem_dedupKeys pairs p.1).mpr ⟨p, hp, rfl⟩
    · exact (mem_blockIdxSet pairs p.1 i).mpr ⟨p, hp, rfl, hpi⟩

theorem toFinset_range' (n : Nat) : (List.range' 0 n).toFinset = Finset.range n := by
  ext i
  simp [List.mem_range'_1, Finset.mem_range]

/-- Claim C3: the final grouping is keyed by signature value, not by block —
the map's keys are duplicate-free, and the group stored under any signature
value `s` is the union of the index sets of all distinct work-base blocks
whose signature resolves to `s` (including the null signature for blocks
with no embedded chainlock). -/
theorem C3_grouping_by_sig_value (env : Env) (bi : BlockIndex) (qs : List Commitment)
    (pairs : List (BlockIndex × Nat)) (b : Bool) (m : List (Nat × Finset ℕ))
    (hres : resolveWorkBlocks env bi qs 0 = some pairs)
    (hm : buildQuorumChainlockInfo env bi qs = some (b, m)) :
    (m.map Prod.fst).Nodup ∧
    ∀ s, lookupCLSig m s = sigBlockUnion env pairs s := by
  have hm2 : m = buildCLSigGroups env pairs := by
    unfold buildQuorumChainlockInfo at hm
    rw [hres] at hm
    simp only [Option.some.injEq, Prod.mk.injEq] at hm
    exact hm.2.symm
  subst hm2
  constructor
  · exact keys_foldl_insert_nodup env pairs (dedupKeys pairs) [] (by simp)
  · intro s
    unfold buildCLSigGroups sigBlockUnion
    rw [lookup_foldl_insert env pairs (dedupKeys pairs) [] s]
    rw [lookupCLSig_nil, Finset.empty_union]

/-- Claim C4: the groups produced by the chainlock correlator have pairwise
disjoint index sets whose union is exactly `0..len(new_quorums)`: every
index appears in exactly one group and every stored index is a valid index
into `new_quorums`. -/
theorem C4_groups_partition_indices (env : Env) (bi : BlockIndex) (qs : List Commitment)
    (pairs : List (BlockIndex × Nat)) (b : Bool) (m : List (Nat × Finset ℕ))
    (hres : resolveWorkBlocks env bi qs 0 = some pairs)
    (hm : buildQuorumChainlockInfo env bi qs = some (b, m)) :
    m.Pairwise (fun g g' => Disjoint g.2 g'.2) ∧
    bigUnion m = Finset.range qs.length := by
  have hm2 : m = buildCLSigGroups env pairs := by
    unfold buildQuorumChainlockInfo at hm
    rw [hres] at hm
    simp only [Option.some.injEq, Prod.mk.injEq] at hm
    exact hm.2.symm
  subst hm2
  have hsnd := resolveWorkBlocks_snd env bi qs 0 pairs hres
  have hnd : (pairs.map Prod.snd).Nodup := by
    rw [hsnd]
    exact List.nodup_range' 0 qs.length
  have hpw : (dedupKeys pairs).Pairwise
      (fun b b' => Disjoint (blockIdxSet pairs b) (blockIdxSet pairs b')) :=
    (dedupKeys_nodup pairs).imp
      (fun hne => blockIdxSet_disjoint pairs hnd _ _ hne)
  obtain ⟨hp, hu⟩ := foldl_insert_invariant env pairs (dedupKeys pairs) []
    List.Pairwise.nil (by intro b' _; simp [bigUnion]) hpw
  refine ⟨hp, ?_⟩
  unfold buildCLSigGroups
  rw [hu]
  rw [show bigUnion ([] : List (Nat × Finset ℕ)) = ∅ from rfl, Finset.empty_union]
  rw [bigUnionList_blockIdxSets pairs, hsnd, toFinset_range']


/-- Witness for C3 at a concrete input: two quorums with distinct work-base
blocks (heights 90 and 190), both carrying the absent signature, end in the
single group keyed by the null signature value. -/
theorem C3_grouping_by_sig_value_witness :
    (mCL.map Prod.fst).Nodup ∧ lookupCLSig mCL 0 = sigBlockUnion envCL pairsCL 0 :=
  ⟨(C3_grouping_by_sig_value envCL ⟨1, 1⟩ qsCL pairsCL true mCL
      (by decide) (by decide)).1,
   (C3_grouping_by_sig_value envCL ⟨1, 1⟩ qsCL pairsCL true mCL
      (by decide) (by decide)).2 0⟩

/-- Witness for C4 at a concrete input: the single group of `envCL` holds
exactly the indices 0 and 1 of the two new quorums. -/
theorem C4_groups_partition_indices_witness :
    mCL.Pairwise (fun g g' => Disjoint g.2 g'.2) ∧
    bigUnion mCL = Finset.range qsCL.length :=
  C4_groups_partition_indices envCL ⟨1, 1⟩ qsCL pairsCL true mCL
    (by decide) (by decide)
